import Mathlib

set_option maxRecDepth 8000

/-!
Verification development for the directive-detection engine of
`src/directive-parser.ts` (a Marp-for-VS-Code directive parser).

Documents are modelled as lists of characters (`Str`); all offsets are
raw character positions, exactly as the source treats them.  The scanner,
the registry and the resolution logic are translated from the source.
The three external parsing collaborators (the front-matter regular
expression living in `./utils`, the YAML key/value extractor, and the
remark/rehype comment locator) are not part of the source under `src/`;
they are modelled from the specification, as marked on each definition.
-/

abbrev Str := List Char

/-- Whitespace test used by the trimming regular expressions (`\s`). -/
def wsChar (c : Char) : Bool :=
  c = ' ' ∨ c = '\t' ∨ c = '\n' ∨ c = '\r'

/-- Characters `len`-many starting at offset `i` of `s`. -/
def sliceAt (s : Str) (i len : Nat) : Str :=
  (s.drop i).take len

/-- Split a text into lines; every line except possibly the last keeps its
terminating newline, so that the concatenation of the lines is the text. -/
def toLines : Str → List Str
  | [] => []
  | c :: cs =>
    if c = '\n' then ['\n'] :: toLines cs
    else
      match toLines cs with
      | [] => [[c]]
      | l :: ls => (c :: l) :: ls

/-- `DirectiveType` from the source. -/
inductive DirectiveType
  | Global
  | Local
  deriving DecidableEq

/-- `DirectiveDefinedIn` from the source. -/
inductive DirectiveDefinedIn
  | frontMatter
  | comment
  deriving DecidableEq

/-- `DirectiveProvidedBy` from the source. -/
inductive DirectiveProvidedBy
  | Marpit
  | MarpCore
  | MarpCLI
  | MarpVSCode
  deriving DecidableEq

/-- `DirectiveInfo` from the source.  The `markdownDescription` and
`markdownDetails` fields are rendering payload produced through the
excluded `MarkdownString` collaborator and carry no detection logic, so
they are not modelled; `scoped` is `boolean | undefined`, modelled as
`Option Bool`. -/
structure DirectiveInfo where
  name : Str
  description : Str
  details : Option Str := none
  allowed : List DirectiveDefinedIn
  providedBy : DirectiveProvidedBy
  type : DirectiveType
  «scoped» : Option Bool := none
  deriving DecidableEq

/-- `directiveAlwaysAllowed` from the source. -/
def directiveAlwaysAllowed : List DirectiveDefinedIn :=
  [DirectiveDefinedIn.frontMatter, DirectiveDefinedIn.comment]

/-- Built-in directive `marp` (Marp for VS Code).  Note its `allowed`
list holds only the front-matter context. -/
def marpInfo : DirectiveInfo :=
  { name := "marp".toList
  , description := "Set whether or not enable Marp preview in VS Code extension.".toList
  , allowed := [DirectiveDefinedIn.frontMatter]
  , providedBy := DirectiveProvidedBy.MarpVSCode
  , type := DirectiveType.Global
  , details := some "https://github.com/marp-team/marp-vscode#usage".toList }

/-- Built-in directive `theme` (Marpit global directive). -/
def themeInfo : DirectiveInfo :=
  { name := "theme".toList
  , description := "Specify a theme name of the slide deck.\n\n## [Marp Core built-in themes](https://github.com/marp-team/marp-core/tree/main/themes)\n\n### `default`\n\n![](https://user-images.githubusercontent.com/3993388/48039490-53be1b80-e1b8-11e8-8179-0e6c11d285e2.png)\n\n### `gaia`\n\n![](https://user-images.githubusercontent.com/3993388/48039493-5456b200-e1b8-11e8-9c49-dd5d66d76c0d.png)\n\n### `uncover`\n\n![](https://user-images.githubusercontent.com/3993388/48039495-5456b200-e1b8-11e8-8c82-ca7f7842b34d.png)".toList
  , allowed := directiveAlwaysAllowed
  , providedBy := DirectiveProvidedBy.Marpit
  , type := DirectiveType.Global
  , details := some "https://marpit.marp.app/directives?id=theme".toList }

/-- Built-in directive `style` (Marpit global directive). -/
def styleInfo : DirectiveInfo :=
  { name := "style".toList
  , description := "Specify CSS for tweaking theme.\n\nIt is exactly same as defining inline style within Markdown. Useful if `<style>` would break the view in the other Markdown tools.\n\n```yaml\nstyle: |\n  section \x7b\n    background-color: #123;\n    color: #def;\n  \x7d\n```".toList
  , allowed := directiveAlwaysAllowed
  , providedBy := DirectiveProvidedBy.Marpit
  , type := DirectiveType.Global
  , details := some "https://marpit.marp.app/directives?id=tweak-theme-style".toList }

/-- Built-in directive `headingDivider` (Marpit global directive). -/
def headingDividerInfo : DirectiveInfo :=
  { name := "headingDivider".toList
  , description := "Specify heading divider option.\n\nYou may instruct to divide slide pages at before of headings automatically. It is useful for making slide from existing Markdown document.\n\nIt have to specify heading level from 1 to 6, or array of them. This feature is enabled at headings having the level _higher than or equal to the specified value_ if in a number, and it is enabled at _only specified levels_ if in array.\n\n```yaml\n# Divide pages by headings having level 3 and higher (#, ##, ###)\nheadingDivider: 3\n\n# Divide pages by only headings having level 1 and 3 (#, ###)\nheadingDivider: [1, 3]\n```".toList
  , allowed := directiveAlwaysAllowed
  , providedBy := DirectiveProvidedBy.Marpit
  , type := DirectiveType.Global
  , details := some "https://marpit.marp.app/directives?id=heading-divider".toList }

/-- Built-in directive `paginate` (Marpit local directive). -/
def paginateInfo : DirectiveInfo :=
  { name := "paginate".toList
  , description := "Show page number on the slide if set `true`.".toList
  , allowed := directiveAlwaysAllowed
  , providedBy := DirectiveProvidedBy.Marpit
  , type := DirectiveType.Local
  , details := some "https://marpit.marp.app/directives?id=pagination".toList }

/-- Built-in directive `header` (Marpit local directive). -/
def headerInfo : DirectiveInfo :=
  { name := "header".toList
  , description := "Specify the content of slide header.\n\nThe content of header can use basic Markdown formatting. To prevent the broken parsing by YAML special characters, recommend to wrap by quotes `\"` or `\x27` when used Markdown syntax:\n\n```yaml\nheader: \"**Header content**\"\n```\n\nTo clear the header content in the middle of slides, set an empty string:\n\n```yaml\nheader: \"\"\n```".toList
  , allowed := directiveAlwaysAllowed
  , providedBy := DirectiveProvidedBy.Marpit
  , type := DirectiveType.Local
  , details := some "https://marpit.marp.app/directives?id=header-and-footer".toList }

/-- Built-in directive `footer` (Marpit local directive). -/
def footerInfo : DirectiveInfo :=
  { name := "footer".toList
  , description := "Specify the content of slide footer.\n\nThe content of footer can use basic Markdown formatting. To prevent the broken parsing by YAML special characters, recommend to wrap by quotes `\"` or `\x27` when used Markdown syntax:\n\n```yaml\nfooter: \"**Footer content**\"\n```\n\nTo clear the footer content in the middle of slides, set an empty string:\n\n```yaml\nfooter: \"\"\n```".toList
  , allowed := directiveAlwaysAllowed
  , providedBy := DirectiveProvidedBy.Marpit
  , type := DirectiveType.Local
  , details := some "https://marpit.marp.app/directives?id=header-and-footer".toList }

/-- Built-in directive `class` (Marpit local directive). -/
def classInfo : DirectiveInfo :=
  { name := "class".toList
  , description := "Specify [HTML `class` attribute](https://developer.mozilla.org/en-US/docs/Web/HTML/Global_attributes/class) for the slide element `<section>`.".toList
  , allowed := directiveAlwaysAllowed
  , providedBy := DirectiveProvidedBy.Marpit
  , type := DirectiveType.Local
  , details := some "https://marpit.marp.app/directives?id=class".toList }

/-- Built-in directive `backgroundColor` (Marpit local directive). -/
def backgroundColorInfo : DirectiveInfo :=
  { name := "backgroundColor".toList
  , description := "Setting [`background-color` style](https://developer.mozilla.org/en-US/docs/Web/CSS/background-color) of the slide.".toList
  , allowed := directiveAlwaysAllowed
  , providedBy := DirectiveProvidedBy.Marpit
  , type := DirectiveType.Local
  , details := some "https://marpit.marp.app/directives?id=backgrounds".toList }

/-- Built-in directive `backgroundImage` (Marpit local directive). -/
def backgroundImageInfo : DirectiveInfo :=
  { name := "backgroundImage".toList
  , description := "Setting [`background-image` style](https://developer.mozilla.org/en-US/docs/Web/CSS/background-image) of the slide.".toList
  , allowed := directiveAlwaysAllowed
  , providedBy := DirectiveProvidedBy.Marpit
  , type := DirectiveType.Local
  , details := some "https://marpit.marp.app/directives?id=backgrounds".toList }

/-- Built-in directive `backgroundPosition` (Marpit local directive). -/
def backgroundPositionInfo : DirectiveInfo :=
  { name := "backgroundPosition".toList
  , description := "Setting [`background-position` style](https://developer.mozilla.org/en-US/docs/Web/CSS/background-position) of the slide.".toList
  , allowed := directiveAlwaysAllowed
  , providedBy := DirectiveProvidedBy.Marpit
  , type := DirectiveType.Local
  , details := some "https://marpit.marp.app/directives?id=backgrounds".toList }

/-- Built-in directive `backgroundRepeat` (Marpit local directive). -/
def backgroundRepeatInfo : DirectiveInfo :=
  { name := "backgroundRepeat".toList
  , description := "Setting [`background-repeat` style](https://developer.mozilla.org/en-US/docs/Web/CSS/background-repeat) of the slide.".toList
  , allowed := directiveAlwaysAllowed
  , providedBy := DirectiveProvidedBy.Marpit
  , type := DirectiveType.Local
  , details := some "https://marpit.marp.app/directives?id=backgrounds".toList }

/-- Built-in directive `backgroundSize` (Marpit local directive). -/
def backgroundSizeInfo : DirectiveInfo :=
  { name := "backgroundSize".toList
  , description := "Setting [`background-size` style](https://developer.mozilla.org/en-US/docs/Web/CSS/background-size) of the slide.".toList
  , allowed := directiveAlwaysAllowed
  , providedBy := DirectiveProvidedBy.Marpit
  , type := DirectiveType.Local
  , details := some "https://marpit.marp.app/directives?id=backgrounds".toList }

/-- Built-in directive `color` (Marpit local directive). -/
def colorInfo : DirectiveInfo :=
  { name := "color".toList
  , description := "Setting [`color` style](https://developer.mozilla.org/en-US/docs/Web/CSS/color) of the slide.".toList
  , allowed := directiveAlwaysAllowed
  , providedBy := DirectiveProvidedBy.Marpit
  , type := DirectiveType.Local
  , details := some "https://marpit.marp.app/directives?id=backgrounds".toList }

/-- Built-in directive `size` (Marp Core extension). -/
def sizeInfo : DirectiveInfo :=
  { name := "size".toList
  , description := "Choose the slide size preset provided by theme.\n\nAccepted presets are depending on using theme. In the case of Marp Core built-in theme, you can choose from `16:9` (1280x720) or `4:3` (960x720).".toList
  , allowed := directiveAlwaysAllowed
  , providedBy := DirectiveProvidedBy.MarpCore
  , type := DirectiveType.Global
  , details := some "https://github.com/marp-team/marp-core#size-global-directive".toList }

/-- Built-in directive `title` (Marp CLI metadata option). -/
def titleInfo : DirectiveInfo :=
  { name := "title".toList
  , description := "Define title of the slide deck.".toList
  , allowed := directiveAlwaysAllowed
  , providedBy := DirectiveProvidedBy.MarpCLI
  , type := DirectiveType.Global
  , details := some "https://github.com/marp-team/marp-cli#metadata".toList }

/-- Built-in directive `description` (Marp CLI metadata option). -/
def descriptionInfo : DirectiveInfo :=
  { name := "description".toList
  , description := "Define description of the slide deck.".toList
  , allowed := directiveAlwaysAllowed
  , providedBy := DirectiveProvidedBy.MarpCLI
  , type := DirectiveType.Global
  , details := some "https://github.com/marp-team/marp-cli#metadata".toList }

/-- Built-in directive `url` (Marp CLI metadata option). -/
def urlInfo : DirectiveInfo :=
  { name := "url".toList
  , description := "Define canonical URL for the slide deck.".toList
  , allowed := directiveAlwaysAllowed
  , providedBy := DirectiveProvidedBy.MarpCLI
  , type := DirectiveType.Global
  , details := some "https://github.com/marp-team/marp-cli#metadata".toList }

/-- Built-in directive `image` (Marp CLI metadata option). -/
def imageInfo : DirectiveInfo :=
  { name := "image".toList
  , description := "Define Open Graph image URL.".toList
  , allowed := directiveAlwaysAllowed
  , providedBy := DirectiveProvidedBy.MarpCLI
  , type := DirectiveType.Global
  , details := some "https://github.com/marp-team/marp-cli#metadata".toList }

/-- `DirectiveParser.builtinDirectives` from the source, in source order. -/
def builtinDirectives : List DirectiveInfo :=
  [ marpInfo, themeInfo, styleInfo, headingDividerInfo, paginateInfo
  , headerInfo, footerInfo, classInfo, backgroundColorInfo
  , backgroundImageInfo, backgroundPositionInfo, backgroundRepeatInfo
  , backgroundSizeInfo, colorInfo, sizeInfo, titleInfo, descriptionInfo
  , urlInfo, imageInfo ]

/-- Initial value of the instance field `directives` (a copy of the
built-in list). -/
def initialDirectives : List DirectiveInfo := builtinDirectives

/-- Registration of an extra definition.  The source exposes the
registry as the public mutable array `directives`; the only mechanism it
offers consumers is appending to that array, which is what this models.
There is no duplicate-name check anywhere in the source. -/
def register (ds : List DirectiveInfo) (d : DirectiveInfo) : List DirectiveInfo :=
  ds ++ [d]

/-- `Pair` from the yaml library surface used by the source: a top-level
mapping entry.  `key` is the key node; the yaml library represents the
empty key of an entry such as `: value` by a null node, modelled here as
`none` (the claims likewise speak of entries whose key is a null YAML
node).  `keyOffset` is the key node range start, relative to the parsed
text, as carried by `item.key.range`. -/
structure YamlPair where
  key : Option Str
  value : Str
  keyOffset : Nat
  deriving DecidableEq

/-- Classification of one line of a key/value block. -/
inductive LineKind
  | bad
  | blank
  | pairLine (key : Option Str) (value : Str)
  deriving DecidableEq

/-- Drop the trailing whitespace run of a text. -/
def dropTrailingWs : Str → Str
  | [] => []
  | c :: cs =>
    match dropTrailingWs cs with
    | [] => if wsChar c then [] else [c]
    | r => c :: r

/-- Split a line content at the first `:` that is followed by a space or
ends the content, returning the parts before and after the colon. -/
def colonSplit : Str → Option (Str × Str)
  | [] => none
  | c :: rest =>
    if c = ':' ∧ (rest = [] ∨ rest.head? = some ' ') then some ([], rest)
    else (colonSplit rest).map (fun pr => (c :: pr.1, pr.2))

/-- Modelled from the spec: one line of the Key/Value Block Extractor
collaborator (the yaml library with the failsafe schema, absent from
`src/`).  A line is blank, a top-level `key: value` entry, or makes the
blob fail to be a plain top-level mapping (indented lines, sequence
items, plain scalars).  An entry written `: value` yields a pair whose
key is the null node. -/
def lineContent (l : Str) : Str :=
  l.takeWhile (fun c => decide (c ≠ '\n'))

/-- Turn the colon split of a line content into its entry: no valid
colon makes the blob fail; an empty part before the colon is the null
key; otherwise the key is the before part stripped of trailing
whitespace. -/
def lineSplitEntry : Option (Str × Str) → LineKind
  | none => LineKind.bad
  | some (before, after) =>
    if before = [] then LineKind.pairLine none (after.dropWhile wsChar)
    else LineKind.pairLine (some (dropTrailingWs before)) (after.dropWhile wsChar)

def lineEntry (l : Str) : LineKind :=
  if (lineContent l).all wsChar then LineKind.blank
  else if wsChar ((lineContent l).headD 'x') then LineKind.bad
  else if (lineContent l).take 2 = "- ".toList ∨ lineContent l = "-".toList then
    LineKind.bad
  else lineSplitEntry (colonSplit (lineContent l))

/-- Modelled from the spec: scan the lines of a blob, tracking the
offset of each line start, and collect its top-level pairs in source
order; fail if any line is not a valid top-level entry. -/
def parseLines : List Str → Nat → Option (List YamlPair)
  | [], _ => some []
  | l :: rest, off =>
    match lineEntry l with
    | LineKind.bad => none
    | LineKind.blank => parseLines rest (off + l.length)
    | LineKind.pairLine k v =>
      match parseLines rest (off + l.length) with
      | none => none
      | some ps => some (⟨k, v, off⟩ :: ps)

/-- Modelled from the spec: the Key/Value Block Extractor collaborator.
Returns the ordered top-level pairs of the blob with key offsets, or
`none` when the blob is not a well-formed top-level mapping (parse
errors, a sequence or a plain scalar, or an empty document). -/
def parseYamlKV (t : Str) : Option (List YamlPair) :=
  match parseLines (toLines t) 0 with
  | none => none
  | some [] => none
  | some ps => some ps

/-- Left trim of a comment body, `c.value.replace(/^-*\s*/, '')` from the
source: the leading run of dashes, then the following run of whitespace. -/
def trimLeftComment (s : Str) : Str :=
  (s.dropWhile (fun c => decide (c = '-'))).dropWhile wsChar

/-- Right trim of a comment body, `.replace(/\s*-*$/, '')` from the
source: the trailing run of dashes together with the whitespace run just
before it (the leftmost-longest match of `\s*-*$`). -/
def trimRightComment (s : Str) : Str :=
  ((s.reverse.dropWhile (fun c => decide (c = '-'))).dropWhile wsChar).reverse

/-- The comment text handed to the extractor by the source:
`trimmedLeft.replace(/\s*-*$/, '')` applied after the left trim. -/
def trimComment (s : Str) : Str :=
  trimRightComment (trimLeftComment s)

/-- Trimming as worded by the claim (not by the source): strip ALL
leading and ALL trailing characters that are dashes or whitespace,
whatever their order. -/
def claimTrim (s : Str) : Str :=
  let p := fun c => (decide (c = '-') || wsChar c)
  ((s.dropWhile p).reverse.dropWhile p).reverse

/-- An HTML comment node as reported by the HTML fragment parser: inner
text plus the span of the whole `<!--...-->` relative to the fragment. -/
structure CommentNode where
  value : Str
  startOffset : Nat
  endOffset : Nat
  deriving DecidableEq

/-- A raw-HTML node as reported by the Markdown structural parser: raw
text plus its span relative to the scanned markdown. -/
structure HtmlNode where
  value : Str
  startOffset : Nat
  endOffset : Nat
  deriving DecidableEq

/-- Split the text following a `<!--` opener at the first `-->`,
returning the comment data and the rest of the text. -/
def splitCmt : Str → Option (Str × Str)
  | [] => none
  | c :: cs =>
    if c = '-' ∧ cs.take 2 = "->".toList then some ([], cs.drop 2)
    else (splitCmt cs).map (fun pr => (c :: pr.1, pr.2))

/-- Fuelled scan for `<!--...-->` comments with their spans. -/
def findCommentsAux : Nat → Str → Nat → List CommentNode
  | 0, _, _ => []
  | _ + 1, [], _ => []
  | fuel + 1, c :: cs, i =>
    if (c :: cs).take 4 = "<!--".toList then
      match splitCmt ((c :: cs).drop 4) with
      | some (inner, rest) =>
        ⟨inner, i, i + inner.length + 7⟩ :: findCommentsAux fuel rest (i + inner.length + 7)
      | none => findCommentsAux fuel cs (i + 1)
    else findCommentsAux fuel cs (i + 1)

/-- All `<!--...-->` comments of a text, in order, with spans.  The ends
of comments follow the HTML tokenizer rule that the comment data stops
at the first `-->`. -/
def findComments (s : Str) : List CommentNode :=
  findCommentsAux s.length s 0

/-- Modelled from the spec: the Markdown structural parser collaborator
(remark, absent from `src/`), which yields the raw-HTML nodes of the
markdown with their spans.  Each HTML comment is reported as one
raw-HTML node whose value is the full comment text.  Exclusion of
comments inside fenced code blocks is this collaborator's duty per the
spec and is not modelled further, as no claim exercises fences. -/
def mdHtmlNodes (s : Str) : List HtmlNode :=
  (findComments s).map (fun c =>
    ⟨"<!--".toList ++ c.value ++ "-->".toList, c.startOffset, c.endOffset⟩)

/-- Modelled from the spec: the HTML fragment parser collaborator
(rehype, absent from `src/`), yielding the comment nodes of a raw-HTML
fragment with spans relative to the fragment. -/
def parseHtmlComments (s : Str) : List CommentNode :=
  findComments s

/-- Search the lines after the opening delimiter for the closing
delimiter line, returning the body (the lines before it) and the close. -/
def findCloseLines : List Str → Option (Str × Str)
  | [] => none
  | l :: ls =>
    if l = "---\n".toList ∨ l = "---".toList then some ([], l)
    else (findCloseLines ls).map (fun pr => (l ++ pr.1, pr.2))

/-- Modelled from the spec: the front-matter recognizer
(`frontMatterRegex` in `./utils`, absent from `src/`).  Per the spec it
matches only at offset 0: an opening delimiter line of three dashes, a
body, and a closing delimiter line of three dashes (the final newline may
be missing at the end of the document).  Returns the open delimiter, the
body and the close delimiter, whose concatenation is the outer block. -/
def fmFromLines : List Str → Option (Str × Str × Str)
  | [] => none
  | first :: rest =>
    if first = "---\n".toList then
      (findCloseLines rest).map (fun pr => (first, pr.1, pr.2))
    else none

def fmMatch (doc : Str) : Option (Str × Str × Str) :=
  fmFromLines (toLines doc)

/-- One event of the parse, mirroring the emitted events of the source.
Ranges carry the raw offsets handed to `doc.positionAt` (the position
conversion itself is an excluded collaborator), as integers because the
source can compute a negative start. -/
inductive ParseEvent
  | startParse
  | frontMatter (body : Str) (rangeStart rangeEnd : Int)
  | comment (body : Str) (rangeStart rangeEnd : Int)
  | directive (info : Option DirectiveInfo) (item : YamlPair) (offset : Nat)
  | endParse
  deriving DecidableEq

deriving instance DecidableEq for Except

/-- `this.directives.find((d) => ...)` from the source, together with the
closure-captured `scoped` flag.  Definitions are scanned in registry
order; a definition not allowing the context is skipped before its name
is compared.  For an allowed definition the source evaluates
`item.key.value`, which throws a TypeError when the key is the null
node — modelled as `Except.error`.  A rule-1 match leaves `scoped`
undefined (`none`); a rule-2 match sets it to `some true`. -/
def findDirective : List DirectiveInfo → DirectiveDefinedIn → Option Str →
    Except Unit (Option (DirectiveInfo × Option Bool))
  | [], _, _ => Except.ok none
  | d :: rest, definedIn, key =>
    if definedIn ∈ d.allowed then
      match key with
      | none => Except.error ()
      | some k =>
        if k = d.name then Except.ok (some (d, none))
        else if d.type = DirectiveType.Local ∧ k = '_' :: d.name then
          Except.ok (some (d, some true))
        else findDirective rest definedIn key
    else findDirective rest definedIn key

/-- Emission of one `directive` event per pair, in source order: resolve
the key (which can throw on a null key), rebuild the info with the
`scoped` flag as `createDirectiveInfo({ ...directiveInfo, scoped })`
does, and emit with the block offset. -/
def emitItems (ds : List DirectiveInfo) (definedIn : DirectiveDefinedIn)
    (offset : Nat) : List YamlPair → Except Unit (List ParseEvent)
  | [] => Except.ok []
  | p :: rest =>
    match findDirective ds definedIn p.key with
    | Except.error e => Except.error e
    | Except.ok found =>
      match emitItems ds definedIn offset rest with
      | Except.error e => Except.error e
      | Except.ok evs =>
        Except.ok (ParseEvent.directive
          (found.map (fun fd => { fd.1 with «scoped» := fd.2 })) p offset :: evs)

/-- `detectDirectives` from the source: run the extractor over the text
and emit one `directive` event per top-level pair; a blob that is not a
well-formed mapping emits nothing. -/
def detectDirectives (ds : List DirectiveInfo) (t : Str) (offset : Nat)
    (definedIn : DirectiveDefinedIn) : Except Unit (List ParseEvent) :=
  match parseYamlKV t with
  | none => Except.ok []
  | some items => emitItems ds definedIn offset items

/-- Comment handling from the source (lines 418-439): for each comment
node of a raw-HTML node, emit the `comment` event with range
`index + n.position.start.offset - 4` to
`index + n.position.end.offset + 3`, then run `detectDirectives` on the
trimmed body at offset `index + n.start + c.start + 4 + leftTrimLength`. -/
def emitCommentsForNode (ds : List DirectiveInfo) (idx : Nat) (n : HtmlNode) :
    List CommentNode → Except Unit (List ParseEvent)
  | [] => Except.ok []
  | c :: rest =>
    match detectDirectives ds (trimComment c.value)
        (idx + n.startOffset + c.startOffset + 4 +
          (c.value.length - (trimLeftComment c.value).length))
        DirectiveDefinedIn.comment with
    | Except.error e => Except.error e
    | Except.ok dirs =>
      match emitCommentsForNode ds idx n rest with
      | Except.error e => Except.error e
      | Except.ok more =>
        Except.ok (ParseEvent.comment ("<!--".toList ++ c.value ++ "-->".toList)
            ((idx + n.startOffset : Int) - 4) ((idx + n.endOffset : Int) + 3)
          :: dirs ++ more)

/-- The comment phase over every raw-HTML node of the remaining markdown. -/
def emitComments (ds : List DirectiveInfo) (idx : Nat) :
    List HtmlNode → Except Unit (List ParseEvent)
  | [] => Except.ok []
  | n :: rest =>
    match emitCommentsForNode ds idx n (parseHtmlComments n.value) with
    | Except.error e => Except.error e
    | Except.ok evs =>
      match emitComments ds idx rest with
      | Except.error e => Except.error e
      | Except.ok more => Except.ok (evs ++ more)

/-- `DirectiveParser.parse` from the source, over a given registry state:
`startParse`; if the front matter matches at offset 0, the `frontMatter`
event over the outer block, its directives at base offset `open.length`,
and the markdown is advanced past the block; then the comment phase over
the remainder; finally `endParse`.  The event list is the emission
order.  An uncaught TypeError of the source is `Except.error`. -/
def parseDoc (ds : List DirectiveInfo) (doc : Str) : Except Unit (List ParseEvent) :=
  match fmMatch doc with
  | some (o, b, cl) =>
    match detectDirectives ds b o.length DirectiveDefinedIn.frontMatter with
    | Except.error e => Except.error e
    | Except.ok fmDirs =>
      match emitComments ds (o.length + b.length + cl.length)
          (mdHtmlNodes (doc.drop (o.length + b.length + cl.length))) with
      | Except.error e => Except.error e
      | Except.ok cEvs =>
        Except.ok (ParseEvent.startParse
          :: ParseEvent.frontMatter (o ++ b ++ cl) 0
               ((o.length + b.length + cl.length : Nat) : Int)
          :: fmDirs ++ cEvs ++ [ParseEvent.endParse])
  | none =>
    match emitComments ds 0 (mdHtmlNodes doc) with
    | Except.error e => Except.error e
    | Except.ok cEvs =>
      Except.ok (ParseEvent.startParse :: cEvs ++ [ParseEvent.endParse])

/-- `parse` on the shipped registry. -/
def parse (doc : Str) : Except Unit (List ParseEvent) :=
  parseDoc initialDirectives doc

/-- The emitted events of a parse result (empty when it threw). -/
def exEvents : Except Unit (List ParseEvent) → List ParseEvent
  | Except.ok evs => evs
  | Except.error _ => []

/-- Whether the parse returned normally. -/
def exOk : Except Unit (List ParseEvent) → Bool
  | Except.ok _ => true
  | Except.error _ => false

/-- The `comment` events of a parse result, as (body, range). -/
def commentEvts (r : Except Unit (List ParseEvent)) : List (Str × Int × Int) :=
  (exEvents r).filterMap (fun e =>
    match e with
    | ParseEvent.comment b s en => some (b, s, en)
    | _ => none)

/-- The keys of the `directive` events of a parse result. -/
def directiveKeys (r : Except Unit (List ParseEvent)) : List (Option Str) :=
  (exEvents r).filterMap (fun e =>
    match e with
    | ParseEvent.directive _ item _ => some item.key
    | _ => none)

/-- The `directive` events of a parse result as (key, absolute key
offset), the absolute key offset being the block offset carried by the
event plus the pair's key offset within the parsed text. -/
def absKeyOffsets (r : Except Unit (List ParseEvent)) : List (Option Str × Nat) :=
  (exEvents r).filterMap (fun e =>
    match e with
    | ParseEvent.directive _ item off => some (item.key, off + item.keyOffset)
    | _ => none)

/-- A custom consumer definition literally named `_paginate`, used to
probe resolution precedence on extended registry states. -/
def underscorePaginateInfo : DirectiveInfo :=
  { name := "_paginate".toList
  , description := "Custom definition literally named _paginate.".toList
  , allowed := directiveAlwaysAllowed
  , providedBy := DirectiveProvidedBy.MarpVSCode
  , type := DirectiveType.Local }

/-- A custom consumer definition reusing the built-in name `paginate`,
used to probe duplicate registration. -/
def duplicatePaginateInfo : DirectiveInfo :=
  { name := "paginate".toList
  , description := "A second definition reusing the name paginate.".toList
  , allowed := directiveAlwaysAllowed
  , providedBy := DirectiveProvidedBy.MarpVSCode
  , type := DirectiveType.Local }

/-- The scenario document of the spec: front matter, a heading, and a
directive comment. -/
def scenarioDoc : Str :=
  ("---\ntheme: gaia\n---\n# Slide\n\n<!-- paginate: true -->\n").toList

/-- The dash-padded comment example of the spec. -/
def dashDoc : Str := ("<!--- theme: gaia ---->\n").toList

/-- A comment whose inner text interleaves whitespace and a dash before
the key. -/
def dashKeyDoc : Str := ("<!-- -x: 1 -->\n").toList

/-- A document whose front matter holds a mapping entry with an empty
(null) key. -/
def nullKeyDoc : Str := ("---\n: a\n---\n").toList

/-- A comment that is not a key/value mapping. -/
def noteDoc : Str := ("<!-- this is just a note -->\n").toList

/-- A front matter whose body is not a key/value mapping. -/
def fmNoiseDoc : Str := ("---\njust a note\n---\n").toList

/-- A document with a malformed front-matter body and a non-mapping
comment: every irregularity is absorbed. -/
def mixedBadDoc : Str := ("---\n[bad\n---\n<!-- note -->\n").toList

/-- A front matter holding two pairs. -/
def fmTwoPairDoc : Str := ("---\ntheme: gaia\npaginate: true\n---\n").toList

/-- Whether every top-level pair the extractor yields for a blob has a
non-null key. -/
def pairsOk (t : Str) : Bool :=
  match parseYamlKV t with
  | none => true
  | some ps => ps.all (fun p => p.key.isSome)

/-- The trimmed comment texts fed to the extractor during the comment
phase over a markdown remainder. -/
def commentTexts (md : Str) : List Str :=
  ((mdHtmlNodes md).map (fun n =>
    (parseHtmlComments n.value).map (fun c => trimComment c.value))).flatten

/-- Every blob a parse of `doc` feeds to the extractor: the front-matter
body when the front matter matches, then the trimmed comment texts of
the remainder. -/
def blockTexts (doc : Str) : List Str :=
  match fmMatch doc with
  | some (o, b, cl) => b :: commentTexts (doc.drop (o.length + b.length + cl.length))
  | none => commentTexts doc

/-- Whether no blob of the document yields a mapping entry with a null
key. -/
def noNullKey (doc : Str) : Bool :=
  (blockTexts doc).all pairsOk

theorem takeAppendLe {α} (l r : List α) (n : Nat) (h : n ≤ l.length) :
    (l ++ r).take n = l.take n := by
  rw [List.take_append_eq_append_take, Nat.sub_eq_zero_of_le h]
  simp

theorem dropAppendAdd {α} (l r : List α) (n : Nat) :
    (l ++ r).drop (l.length + n) = r.drop n := by
  rw [List.drop_append_eq_append_drop, List.drop_eq_nil_of_le (by omega)]
  simp only [List.nil_append]
  congr 1
  omega

theorem dropAppendLe {α} (l r : List α) (i : Nat) (h : i ≤ l.length) :
    (l ++ r).drop i = l.drop i ++ r := by
  rw [List.drop_append_eq_append_drop]
  congr 1
  rw [Nat.sub_eq_zero_of_le h]
  simp

theorem toLines_flatten (s : Str) : (toLines s).flatten = s := by
  induction s with
  | nil => rfl
  | cons c cs ih =>
    rw [toLines]
    by_cases h : c = '\n'
    · simp only [if_pos h, List.flatten_cons, List.singleton_append]
      rw [ih, h]
    · simp only [if_neg h]
      cases h2 : toLines cs with
      | nil =>
        have : cs = [] := by rw [← ih, h2]; rfl
        simp [this]
      | cons l ls =>
        have : (l :: ls).flatten = cs := by rw [← h2, ih]
        simp only [List.flatten_cons] at this ⊢
        simp [this]

theorem pre_trans {a b c : Str} (h1 : b.take a.length = a) (h2 : c.take b.length = b) :
    c.take a.length = a := by
  have hlen : a.length ≤ b.length := by
    have := congrArg List.length h1
    simp only [List.length_take] at this
    omega
  have : (c.take b.length).take a.length = c.take a.length := by
    rw [List.take_take]
    congr 1
    omega
  rw [← this, h2, h1]

theorem takeWhile_pre (f : Char → Bool) (l : Str) :
    l.take (l.takeWhile f).length = l.takeWhile f := by
  induction l with
  | nil => rfl
  | cons a l ih =>
    cases hfa : f a with
    | true =>
      simp only [List.takeWhile_cons, hfa, if_true, List.length_cons,
        List.take_succ_cons]
      rw [ih]
    | false => simp [List.takeWhile_cons, hfa]

theorem dropTrailingWs_pre (l : Str) :
    l.take (dropTrailingWs l).length = dropTrailingWs l := by
  induction l with
  | nil => rfl
  | cons c cs ih =>
    cases h : dropTrailingWs cs with
    | nil =>
      by_cases hw : wsChar c = true
      · have hd : dropTrailingWs (c :: cs) = [] := by
          rw [dropTrailingWs, h, if_pos hw]
        simp [hd]
      · have hd : dropTrailingWs (c :: cs) = [c] := by
          rw [dropTrailingWs, h, if_neg hw]
        simp [hd]
    | cons r rs =>
      have hd : dropTrailingWs (c :: cs) = c :: (r :: rs) := by
        rw [dropTrailingWs, h]
      rw [hd, List.length_cons, List.take_succ_cons, ← h, ih, h]

theorem colonSplit_take (s : Str) (a r : Str) (h : colonSplit s = some (a, r)) :
    s.take a.length = a := by
  induction s generalizing a r with
  | nil => simp [colonSplit] at h
  | cons c rest ih =>
    rw [colonSplit] at h
    by_cases hc : c = ':' ∧ (rest = [] ∨ rest.head? = some ' ')
    · rw [if_pos hc] at h
      simp only [Option.some.injEq, Prod.mk.injEq] at h
      obtain ⟨ha, _⟩ := h
      subst ha
      rfl
    · rw [if_neg hc] at h
      cases hcs : colonSplit rest with
      | none => rw [hcs] at h; simp at h
      | some pr =>
        obtain ⟨a', r'⟩ := pr
        rw [hcs] at h
        simp only [Option.map_some', Option.some.injEq, Prod.mk.injEq] at h
        obtain ⟨ha, _⟩ := h
        subst ha
        simp only [List.length_cons, List.take_succ_cons]
        rw [ih a' r' hcs]

theorem lineEntry_key (l : Str) (k : Str) (v : Str)
    (h : lineEntry l = LineKind.pairLine (some k) v) :
    l.take k.length = k := by
  rw [lineEntry] at h
  by_cases h1 : (lineContent l).all wsChar = true
  · rw [if_pos h1] at h; exact absurd h (by simp)
  rw [if_neg h1] at h
  by_cases h2 : wsChar ((lineContent l).headD 'x') = true
  · rw [if_pos h2] at h; exact absurd h (by simp)
  rw [if_neg h2] at h
  by_cases h3 : (lineContent l).take 2 = "- ".toList ∨ lineContent l = "-".toList
  · rw [if_pos h3] at h; exact absurd h (by simp)
  rw [if_neg h3] at h
  cases hcs : colonSplit (lineContent l) with
  | none => rw [hcs] at h; exact absurd h (by simp [lineSplitEntry])
  | some pr =>
    obtain ⟨before, after⟩ := pr
    rw [hcs] at h
    by_cases h4 : before = []
    · rw [lineSplitEntry, if_pos h4] at h
      exact absurd h (by simp)
    · rw [lineSplitEntry, if_neg h4] at h
      simp only [LineKind.pairLine.injEq, Option.some.injEq] at h
      obtain ⟨hk, _⟩ := h
      subst hk
      exact pre_trans (dropTrailingWs_pre before)
        (pre_trans (colonSplit_take _ _ _ hcs) (takeWhile_pre _ l))

theorem parseLines_key_at (lines : List Str) (off : Nat) (ps : List YamlPair)
    (h : parseLines lines off = some ps) :
    ∀ p ∈ ps, off ≤ p.keyOffset ∧
      ∀ k, p.key = some k →
        sliceAt lines.flatten (p.keyOffset - off) k.length = k := by
  induction lines generalizing off ps with
  | nil =>
    simp only [parseLines, Option.some.injEq] at h
    subst h
    intro p hp
    exact absurd hp (by simp)
  | cons l rest ih =>
    cases hle : lineEntry l with
    | bad => simp [parseLines, hle] at h
    | blank =>
      simp only [parseLines, hle] at h
      intro p hp
      obtain ⟨h1, h2⟩ := ih (off + l.length) ps h p hp
      refine ⟨by omega, fun k hk => ?_⟩
      have harith : p.keyOffset - off = l.length + (p.keyOffset - (off + l.length)) := by
        omega
      simp only [List.flatten_cons, sliceAt, harith, dropAppendAdd]
      exact h2 k hk
    | pairLine k0 v0 =>
      simp only [parseLines, hle] at h
      cases hrec : parseLines rest (off + l.length) with
      | none => rw [hrec] at h; simp at h
      | some ps' =>
        rw [hrec] at h
        simp only [Option.some.injEq] at h
        subst h
        intro p hp
        rcases List.mem_cons.mp hp with hhead | htail
        · subst hhead
          refine ⟨Nat.le_refl _, fun k hk => ?_⟩
          simp only at hk
          subst hk
          have hkey := lineEntry_key l k v0 hle
          have hlen : k.length ≤ l.length := by
            have := congrArg List.length hkey
            simp only [List.length_take] at this
            omega
          simp only [List.flatten_cons, sliceAt, Nat.sub_self, List.drop_zero]
          rw [takeAppendLe _ _ _ hlen, hkey]
        · obtain ⟨h1, h2⟩ := ih (off + l.length) ps' hrec p htail
          refine ⟨by omega, fun k hk => ?_⟩
          have harith : p.keyOffset - off =
              l.length + (p.keyOffset - (off + l.length)) := by omega
          simp only [List.flatten_cons, sliceAt, harith, dropAppendAdd]
          exact h2 k hk

theorem parseYamlKV_key_at (t : Str) (ps : List YamlPair)
    (h : parseYamlKV t = some ps) :
    ∀ p ∈ ps, ∀ k, p.key = some k →
      sliceAt t p.keyOffset k.length = k := by
  rw [parseYamlKV] at h
  cases hpl : parseLines (toLines t) 0 with
  | none => rw [hpl] at h; simp at h
  | some ps0 =>
    rw [hpl] at h
    cases ps0 with
    | nil => simp at h
    | cons q qs =>
      simp only [Option.some.injEq] at h
      subst h
      intro p hp k hk
      obtain ⟨_, h2⟩ := parseLines_key_at (toLines t) 0 (q :: qs) hpl p hp
      have := h2 k hk
      rwa [toLines_flatten, Nat.sub_zero] at this

theorem findCloseLines_flatten (ls : List Str) (b cl : Str)
    (h : findCloseLines ls = some (b, cl)) :
    ∃ suf, ls.flatten = b ++ cl ++ suf := by
  induction ls generalizing b cl with
  | nil => simp [findCloseLines] at h
  | cons l rest ih =>
    rw [findCloseLines] at h
    by_cases hc : l = "---\n".toList ∨ l = "---".toList
    · rw [if_pos hc] at h
      simp only [Option.some.injEq, Prod.mk.injEq] at h
      obtain ⟨hb, hcl⟩ := h
      subst hb
      subst hcl
      exact ⟨rest.flatten, by simp⟩
    · rw [if_neg hc] at h
      cases hfc : findCloseLines rest with
      | none => rw [hfc] at h; simp at h
      | some pr =>
        obtain ⟨b', cl'⟩ := pr
        rw [hfc] at h
        simp only [Option.map_some', Option.some.injEq, Prod.mk.injEq] at h
        obtain ⟨hb, hcl⟩ := h
        subst hb
        subst hcl
        obtain ⟨suf, hsuf⟩ := ih b' cl' hfc
        exact ⟨suf, by simp [hsuf]⟩

theorem fmMatch_decomp (doc : Str) (o b cl : Str)
    (h : fmMatch doc = some (o, b, cl)) :
    ∃ suf, doc = o ++ (b ++ (cl ++ suf)) := by
  rw [fmMatch] at h
  cases htl : toLines doc with
  | nil => rw [htl] at h; simp [fmFromLines] at h
  | cons first rest =>
    rw [htl, fmFromLines] at h
    by_cases hf : first = "---\n".toList
    · rw [if_pos hf] at h
      cases hfc : findCloseLines rest with
      | none => rw [hfc] at h; simp at h
      | some pr =>
        obtain ⟨b', cl'⟩ := pr
        rw [hfc] at h
        simp only [Option.map_some', Option.some.injEq, Prod.mk.injEq] at h
        obtain ⟨ho, hb, hcl⟩ := h
        subst ho
        subst hb
        subst hcl
        obtain ⟨suf, hsuf⟩ := findCloseLines_flatten rest b' cl' hfc
        refine ⟨suf, ?_⟩
        have : doc = (toLines doc).flatten := (toLines_flatten doc).symm
        rw [this, htl, List.flatten_cons, hsuf]
        simp
    · rw [if_neg hf] at h
      simp at h

theorem sliceAt_shift (o t : Str) (i n : Nat) :
    sliceAt (o ++ t) (o.length + i) n = sliceAt t i n := by
  simp [sliceAt, dropAppendAdd]

theorem sliceAt_append (b rest : Str) (i n : Nat) (k : Str)
    (h : sliceAt b i n = k) (hn : k.length = n) :
    sliceAt (b ++ rest) i n = k := by
  cases n with
  | zero =>
    have : k = [] := List.length_eq_zero.mp hn
    simp [sliceAt, this]
  | succ m =>
    have hlen : m + 1 ≤ (b.drop i).length := by
      have := congrArg List.length h
      simp only [sliceAt, List.length_take] at this
      omega
    have hib : i ≤ b.length := by
      have := List.length_drop i b
      omega
    rw [sliceAt, dropAppendLe _ _ _ hib, takeAppendLe _ _ _ hlen]
    exact h

theorem emitItems_mem (ds : List DirectiveInfo) (ctx : DirectiveDefinedIn)
    (off : Nat) (items : List YamlPair) (evs : List ParseEvent)
    (h : emitItems ds ctx off items = Except.ok evs) :
    ∀ info p o, ParseEvent.directive info p o ∈ evs → p ∈ items ∧ o = off := by
  induction items generalizing evs with
  | nil =>
    simp only [emitItems, Except.ok.injEq] at h
    subst h
    intro info p o hm
    exact absurd hm (by simp)
  | cons q rest ih =>
    rw [emitItems] at h
    cases hf : findDirective ds ctx q.key with
    | error e => rw [hf] at h; simp at h
    | ok found =>
      rw [hf] at h
      cases hr : emitItems ds ctx off rest with
      | error e => rw [hr] at h; simp at h
      | ok evs' =>
        rw [hr] at h
        simp only [Except.ok.injEq] at h
        subst h
        intro info p o hm
        rcases List.mem_cons.mp hm with hhead | htail
        · have := ParseEvent.directive.injEq .. ▸ hhead
          simp only [ParseEvent.directive.injEq] at hhead
          obtain ⟨_, hp, ho⟩ := hhead
          exact ⟨by simp [hp], ho⟩
        · obtain ⟨h1, h2⟩ := ih evs' hr info p o htail
          exact ⟨List.mem_cons_of_mem _ h1, h2⟩

theorem detect_mem (ds : List DirectiveInfo) (t : Str) (off : Nat)
    (ctx : DirectiveDefinedIn) (evs : List ParseEvent)
    (h : detectDirectives ds t off ctx = Except.ok evs) :
    ∀ info p o, ParseEvent.directive info p o ∈ evs →
      o = off ∧ ∃ ps, parseYamlKV t = some ps ∧ p ∈ ps := by
  rw [detectDirectives] at h
  cases hkv : parseYamlKV t with
  | none =>
    rw [hkv] at h
    simp only [Except.ok.injEq] at h
    subst h
    intro info p o hm
    exact absurd hm (by simp)
  | some items =>
    rw [hkv] at h
    intro info p o hm
    obtain ⟨h1, h2⟩ := emitItems_mem ds ctx off items evs h info p o hm
    exact ⟨h2, items, rfl, h1⟩

theorem emitItems_unknown (ds : List DirectiveInfo) (ctx : DirectiveDefinedIn)
    (off : Nat) (items : List YamlPair) (evs : List ParseEvent)
    (h : emitItems ds ctx off items = Except.ok evs) :
    ∀ p ∈ items, findDirective ds ctx p.key = Except.ok none →
      ParseEvent.directive none p off ∈ evs := by
  induction items generalizing evs with
  | nil =>
    intro p hp
    exact absurd hp (by simp)
  | cons q rest ih =>
    rw [emitItems] at h
    cases hf : findDirective ds ctx q.key with
    | error e => rw [hf] at h; simp at h
    | ok found =>
      rw [hf] at h
      cases hr : emitItems ds ctx off rest with
      | error e => rw [hr] at h; simp at h
      | ok evs' =>
        rw [hr] at h
        simp only [Except.ok.injEq] at h
        subst h
        intro p hp hfind
        rcases List.mem_cons.mp hp with hhead | htail
        · subst hhead
          rw [hf] at hfind
          simp only [Except.ok.injEq] at hfind
          subst hfind
          simp [Option.map_none']
        · exact List.mem_cons_of_mem _ (ih evs' hr p htail hfind)

theorem findDirective_some_ok (ds : List DirectiveInfo) (ctx : DirectiveDefinedIn)
    (k : Str) : ∃ r, findDirective ds ctx (some k) = Except.ok r := by
  induction ds with
  | nil => exact ⟨none, rfl⟩
  | cons d rest ih =>
    rw [findDirective]
    by_cases ha : ctx ∈ d.allowed
    · rw [if_pos ha]
      by_cases h1 : k = d.name
      · exact ⟨some (d, none), by rw [if_pos h1]⟩
      · rw [if_neg h1]
        by_cases h2 : d.type = DirectiveType.Local ∧ k = '_' :: d.name
        · exact ⟨some (d, some true), by rw [if_pos h2]⟩
        · rw [if_neg h2]
          exact ih
    · rw [if_neg ha]
      exact ih

theorem emitItems_ok (ds : List DirectiveInfo) (ctx : DirectiveDefinedIn)
    (off : Nat) (items : List YamlPair)
    (h : ∀ p ∈ items, p.key.isSome) :
    ∃ evs, emitItems ds ctx off items = Except.ok evs := by
  induction items with
  | nil => exact ⟨[], rfl⟩
  | cons q rest ih =>
    obtain ⟨k, hk⟩ := Option.isSome_iff_exists.mp (h q (by simp))
    obtain ⟨r, hr⟩ := findDirective_some_ok ds ctx k
    obtain ⟨evs, hevs⟩ := ih (fun p hp => h p (List.mem_cons_of_mem _ hp))
    refine ⟨ParseEvent.directive (r.map (fun fd => { fd.1 with «scoped» := fd.2 })) q off :: evs, ?_⟩
    rw [emitItems, hk, hr, hevs]

theorem detect_ok (ds : List DirectiveInfo) (t : Str) (off : Nat)
    (ctx : DirectiveDefinedIn) (h : pairsOk t = true) :
    ∃ evs, detectDirectives ds t off ctx = Except.ok evs := by
  rw [detectDirectives]
  cases hkv : parseYamlKV t with
  | none => exact ⟨[], rfl⟩
  | some items =>
    rw [pairsOk, hkv, List.all_eq_true] at h
    exact emitItems_ok ds ctx off items h

theorem emitCommentsForNode_ok (ds : List DirectiveInfo) (idx : Nat) (n : HtmlNode)
    (cs : List CommentNode)
    (h : ∀ c ∈ cs, pairsOk (trimComment c.value) = true) :
    ∃ evs, emitCommentsForNode ds idx n cs = Except.ok evs := by
  induction cs with
  | nil => exact ⟨[], rfl⟩
  | cons c rest ih =>
    obtain ⟨dirs, hd⟩ := detect_ok ds (trimComment c.value)
      (idx + n.startOffset + c.startOffset + 4 +
        (c.value.length - (trimLeftComment c.value).length))
      DirectiveDefinedIn.comment (h c (by simp))
    obtain ⟨more, hm⟩ := ih (fun c2 hc2 => h c2 (List.mem_cons_of_mem _ hc2))
    refine ⟨ParseEvent.comment ("<!--".toList ++ c.value ++ "-->".toList)
      ((idx + n.startOffset : Int) - 4) ((idx + n.endOffset : Int) + 3) :: dirs ++ more, ?_⟩
    rw [emitCommentsForNode, hd, hm]

theorem emitComments_ok (ds : List DirectiveInfo) (idx : Nat)
    (ns : List HtmlNode)
    (h : ∀ n ∈ ns, ∀ c ∈ parseHtmlComments n.value,
      pairsOk (trimComment c.value) = true) :
    ∃ evs, emitComments ds idx ns = Except.ok evs := by
  induction ns with
  | nil => exact ⟨[], rfl⟩
  | cons n rest ih =>
    obtain ⟨evs, hevs⟩ := emitCommentsForNode_ok ds idx n
      (parseHtmlComments n.value) (h n (by simp))
    obtain ⟨more, hm⟩ := ih (fun n2 hn2 => h n2 (List.mem_cons_of_mem _ hn2))
    refine ⟨evs ++ more, ?_⟩
    rw [emitComments, hevs, hm]

theorem commentTexts_pairsOk (md : Str)
    (h : (commentTexts md).all pairsOk = true) :
    ∀ n ∈ mdHtmlNodes md, ∀ c ∈ parseHtmlComments n.value,
      pairsOk (trimComment c.value) = true := by
  intro n hn c hc
  rw [List.all_eq_true] at h
  refine h (trimComment c.value) ?_
  rw [commentTexts, List.mem_flatten]
  exact ⟨(parseHtmlComments n.value).map (fun c2 => trimComment c2.value),
    List.mem_map_of_mem _ hn, List.mem_map_of_mem _ hc⟩

/-- C1: the claim says the `comment` event range covers exactly the full
`<!--...-->` text.  On the spec scenario document the full comment text
occupies offsets 29 to 52, but the code computes the range from the
raw-HTML node span as `index + n.start - 4` to `index + n.end + 3` and
emits 25 to 55, a range that disagrees with the emitted body and with
the directive offsets computed four lines below it in the source. -/
theorem c1_comment_range_bug :
    commentEvts (parse scenarioDoc) =
      [("<!-- paginate: true -->".toList, 25, 55)] ∧
    sliceAt scenarioDoc 29 23 = "<!-- paginate: true -->".toList ∧
    scenarioDoc.length = 53 ∧
    ¬ ((25 : Int) = 29 ∧ (55 : Int) = 52) := by
  refine ⟨by decide, by decide, by decide, by decide⟩

/-- C2 counterexample: the claim says the trimming strips ALL leading
dash/whitespace characters.  For the comment `<!-- -x: 1 -->` the code
strips only the leading whitespace run (`/^-*\s*/` is a dash run, then a
whitespace run), so the emitted key is `-x`, while stripping all leading
dash/whitespace characters would give the key `x`. -/
theorem c2_trim_counterexample :
    directiveKeys (parse dashKeyDoc) = [some ("-x".toList)] ∧
    trimComment (" -x: 1 ".toList) = "-x: 1".toList ∧
    claimTrim (" -x: 1 ".toList) = "x: 1".toList ∧
    trimComment (" -x: 1 ".toList) ≠ claimTrim (" -x: 1 ".toList) := by
  refine ⟨by decide, by decide, by decide, by decide⟩

/-- C4 counterexample: the claim says every built-in definition permits
both declaration contexts; `marp` is the unique built-in that does not
permit the comment context (its `allowed` is only the front matter). -/
theorem c4_marp_context_counterexample :
    (builtinDirectives.filter
        (fun d => ! decide (DirectiveDefinedIn.comment ∈ d.allowed))).map
      (fun d => d.name) = ["marp".toList] ∧
    marpInfo ∈ builtinDirectives ∧
    marpInfo.allowed = [DirectiveDefinedIn.frontMatter] := by
  refine ⟨by decide, by decide, by decide⟩

/-- C4 amended: every built-in definition other than `marp` permits both
the front-matter and the comment context, and `marp` permits exactly the
front-matter context. -/
theorem c4_allowed_contexts :
    builtinDirectives.all (fun d =>
      if d.name = "marp".toList then
        decide (d.allowed = [DirectiveDefinedIn.frontMatter])
      else
        decide (DirectiveDefinedIn.frontMatter ∈ d.allowed) &&
        decide (DirectiveDefinedIn.comment ∈ d.allowed)) = true := by
  decide

/-- C5 counterexample: the claim says exact-name matching always takes
precedence over scoped matching, so a definition literally named
`_paginate` should win for the raw key `_paginate`.  With the registry
extended by appending such a definition, the scan reaches the Local
built-in `paginate` first and returns it through the scoped rule; the
literal `_paginate` definition is never reached. -/
theorem c5_rule_order_counterexample :
    findDirective (register initialDirectives underscorePaginateInfo)
        DirectiveDefinedIn.comment (some ("_paginate".toList)) =
      Except.ok (some (paginateInfo, some true)) ∧
    paginateInfo.name ≠ underscorePaginateInfo.name ∧
    findDirective (register initialDirectives underscorePaginateInfo)
        DirectiveDefinedIn.comment (some ("_paginate".toList)) ≠
      Except.ok (some (underscorePaginateInfo, none)) := by
  refine ⟨by decide, by decide, by decide⟩

/-- C5 amended: resolution scans definitions in registry order and the
first definition matching either rule wins; within one definition the
exact-name rule is tried before the scoped rule.  A literal `_paginate`
definition wins only when it precedes the Local `paginate` definition;
appended after it, it is shadowed by the scoped rule. -/
theorem c5_registry_order_resolution :
    findDirective (underscorePaginateInfo :: initialDirectives)
        DirectiveDefinedIn.comment (some ("_paginate".toList)) =
      Except.ok (some (underscorePaginateInfo, none)) ∧
    findDirective (register initialDirectives underscorePaginateInfo)
        DirectiveDefinedIn.comment (some ("_paginate".toList)) =
      Except.ok (some (paginateInfo, some true)) := by
  refine ⟨by decide, by decide⟩

/-- C6 counterexample: the claim says registering a definition whose
name already exists fails with a duplicate-name error.  The registry is
a plain array and registration is an append: registering a second
`paginate` succeeds and leaves two definitions with that name. -/
theorem c6_duplicate_register_counterexample :
    (register initialDirectives duplicatePaginateInfo).length =
      initialDirectives.length + 1 ∧
    (register initialDirectives duplicatePaginateInfo).countP
      (fun d => decide (d.name = "paginate".toList)) = 2 := by
  refine ⟨by decide, by decide⟩

/-- C6 amended: appending a duplicate name is not detected or rejected;
the appended duplicate is shadowed during resolution, which still
returns the original built-in, so a built-in cannot be removed or
overridden by the only extension mechanism the code offers. -/
theorem c6_duplicate_shadowed :
    findDirective (register initialDirectives duplicatePaginateInfo)
        DirectiveDefinedIn.comment (some ("paginate".toList)) =
      Except.ok (some (paginateInfo, none)) ∧
    duplicatePaginateInfo ≠ paginateInfo := by
  refine ⟨by decide, by decide⟩

/-- C8: on the shipped registry, the key `_header` resolves in both
contexts to the Local definition `header` with the scoped flag set, and
the key `_marp` resolves to nothing in both contexts because `marp` is
Global and Global directives have no scoped alias. -/
theorem c8_scoped_resolution :
    findDirective initialDirectives DirectiveDefinedIn.frontMatter
        (some ("_header".toList)) = Except.ok (some (headerInfo, some true)) ∧
    findDirective initialDirectives DirectiveDefinedIn.comment
        (some ("_header".toList)) = Except.ok (some (headerInfo, some true)) ∧
    headerInfo.type = DirectiveType.Local ∧
    findDirective initialDirectives DirectiveDefinedIn.frontMatter
        (some ("_marp".toList)) = Except.ok none ∧
    findDirective initialDirectives DirectiveDefinedIn.comment
        (some ("_marp".toList)) = Except.ok none ∧
    marpInfo.type = DirectiveType.Global := by
  refine ⟨by decide, by decide, by decide, by decide, by decide, by decide⟩

/-- C10 counterexample: the claim says the parse never throws on any
input.  A front matter whose body is `: a` parses as a mapping with one
entry whose key is the null node; resolving it dereferences
`item.key.value` on null and the parse throws. -/
theorem c10_null_key_throws :
    parse nullKeyDoc = Except.error () ∧
    parseYamlKV (": a\n".toList) = some [⟨none, "a".toList, 0⟩] := by
  refine ⟨by decide, by decide⟩

/-- C2 amended: every directive event produced for a comment carries the
offset `advance + node start + comment start + 4 + left-trim length`,
where the left trim strips the leading dash run and then the following
whitespace run (and the right trim strips the trailing dash run and the
whitespace run before it), and its item is a pair of the trimmed text,
whose key offset within that text completes the absolute key offset; on
`<!--- theme: gaia ---->` the key is `theme` at absolute offset 6,
pointing at the `t` of `theme` in the document. -/
theorem c2_offset_formula :
    (∀ (ds : List DirectiveInfo) (idx : Nat) (n : HtmlNode) (c : CommentNode)
        (evs : List ParseEvent),
        emitCommentsForNode ds idx n [c] = Except.ok evs →
        ∀ info item off, ParseEvent.directive info item off ∈ evs →
          off = idx + n.startOffset + c.startOffset + 4 +
            (c.value.length - (trimLeftComment c.value).length) ∧
          ∃ ps, parseYamlKV (trimComment c.value) = some ps ∧ item ∈ ps) ∧
    absKeyOffsets (parse dashDoc) = [(some ("theme".toList), 6)] ∧
    sliceAt dashDoc 6 5 = "theme".toList := by
  refine ⟨?_, by decide, by decide⟩
  intro ds idx n c evs h info item off hm
  cases hd : detectDirectives ds (trimComment c.value)
      (idx + n.startOffset + c.startOffset + 4 +
        (c.value.length - (trimLeftComment c.value).length))
      DirectiveDefinedIn.comment with
  | error e => rw [emitCommentsForNode, hd] at h; simp at h
  | ok dirs =>
    rw [emitCommentsForNode, hd] at h
    simp only [emitCommentsForNode, List.append_nil, Except.ok.injEq] at h
    subst h
    rcases List.mem_cons.mp hm with hhead | htail
    · exact absurd hhead (by simp)
    · exact detect_mem ds (trimComment c.value) _ DirectiveDefinedIn.comment
        dirs hd info item off htail

theorem c2_offset_formula_witness :
    (34 : Nat) = 20 + 9 + 0 + 4 +
      ((" paginate: true ".toList).length -
        (trimLeftComment (" paginate: true ".toList)).length) :=
  (c2_offset_formula.1 initialDirectives 20
    ⟨"<!-- paginate: true -->".toList, 9, 32⟩
    ⟨" paginate: true ".toList, 0, 23⟩
    [ParseEvent.comment ("<!-- paginate: true -->".toList) 25 55,
     ParseEvent.directive (some { paginateInfo with «scoped» := none })
       ⟨some ("paginate".toList), "true".toList, 0⟩ 34]
    (by decide)
    (some { paginateInfo with «scoped» := none })
    ⟨some ("paginate".toList), "true".toList, 0⟩ 34 (by decide)).1

/-- C3: every directive event of the front-matter phase carries the
block offset `open.length`, its item is one of the extracted pairs of
the body (not only the first one), the absolute key offset
`open.length + keyOffset` is the byte offset of the key within the whole
document, and the event is among the events of a successful parse. -/
theorem c3_frontmatter_key_offsets (doc o b cl : Str) (ps : List YamlPair)
    (hfm : fmMatch doc = some (o, b, cl)) (hps : parseYamlKV b = some ps) :
    ∀ info item off,
      ParseEvent.directive info item off ∈
        exEvents (detectDirectives initialDirectives b o.length
          DirectiveDefinedIn.frontMatter) →
      off = o.length ∧ item ∈ ps ∧
      (∀ k, item.key = some k →
        sliceAt doc (o.length + item.keyOffset) k.length = k) ∧
      (∀ evs, parseDoc initialDirectives doc = Except.ok evs →
        ParseEvent.directive info item off ∈ evs) := by
  intro info item off hm
  cases hd : detectDirectives initialDirectives b o.length
      DirectiveDefinedIn.frontMatter with
  | error e => rw [hd] at hm; exact absurd hm (by simp [exEvents])
  | ok fmDirs =>
    rw [hd] at hm
    simp only [exEvents] at hm
    obtain ⟨ho, ps', hps', hmem⟩ :=
      detect_mem initialDirectives b o.length DirectiveDefinedIn.frontMatter
        fmDirs hd info item off hm
    rw [hps] at hps'
    simp only [Option.some.injEq] at hps'
    subst hps'
    refine ⟨ho, hmem, fun k hk => ?_, fun evs hp => ?_⟩
    · have hsl := parseYamlKV_key_at b ps hps item hmem k hk
      obtain ⟨suf, hdoc⟩ := fmMatch_decomp doc o b cl hfm
      rw [hdoc, sliceAt_shift]
      exact sliceAt_append b (cl ++ suf) item.keyOffset k.length k hsl rfl
    · cases hec : emitComments initialDirectives (o.length + b.length + cl.length)
          (mdHtmlNodes (doc.drop (o.length + b.length + cl.length))) with
      | error e => simp [parseDoc, hfm, hd, hec] at hp
      | ok cEvs =>
        simp only [parseDoc, hfm, hd, hec, Except.ok.injEq] at hp
        subst hp
        exact List.mem_cons_of_mem _ (List.mem_cons_of_mem _
          (List.mem_append_left _ (List.mem_append_left _ hm)))

theorem c3_frontmatter_key_offsets_witness :
    sliceAt fmTwoPairDoc 16 8 = "paginate".toList := by
  have h := c3_frontmatter_key_offsets fmTwoPairDoc ("---\n".toList)
    ("theme: gaia\npaginate: true\n".toList) ("---\n".toList)
    [⟨some ("theme".toList), "gaia".toList, 0⟩,
     ⟨some ("paginate".toList), "true".toList, 12⟩]
    (by decide) (by decide)
    (some { paginateInfo with «scoped» := none })
    ⟨some ("paginate".toList), "true".toList, 12⟩ 4 (by decide)
  exact h.2.2.1 ("paginate".toList) rfl

/-- C7: when a block's text is not a well-formed key/value mapping, zero
directive events are emitted for that block while the block-found event
still fires: a failing front-matter body yields an empty directive
phase yet the `frontMatter` event is among the parse events, and a
comment whose trimmed text fails extraction emits exactly its `comment`
event and nothing else. -/
theorem c7_invalid_block_zero_directives :
    (∀ (ds : List DirectiveInfo) (doc o b cl : Str),
        fmMatch doc = some (o, b, cl) → parseYamlKV b = none →
        detectDirectives ds b o.length DirectiveDefinedIn.frontMatter =
          Except.ok [] ∧
        ∀ evs, parseDoc ds doc = Except.ok evs →
          ParseEvent.frontMatter (o ++ b ++ cl) 0
            ((o.length + b.length + cl.length : Nat) : Int) ∈ evs) ∧
    (∀ (ds : List DirectiveInfo) (idx : Nat) (n : HtmlNode) (c : CommentNode),
        parseYamlKV (trimComment c.value) = none →
        emitCommentsForNode ds idx n [c] =
          Except.ok [ParseEvent.comment
            ("<!--".toList ++ c.value ++ "-->".toList)
            ((idx + n.startOffset : Int) - 4)
            ((idx + n.endOffset : Int) + 3)]) := by
  constructor
  · intro ds doc o b cl hfm hnone
    have hdet : detectDirectives ds b o.length DirectiveDefinedIn.frontMatter =
        Except.ok [] := by
      rw [detectDirectives, hnone]
    refine ⟨hdet, ?_⟩
    intro evs hp
    cases hec : emitComments ds (o.length + b.length + cl.length)
        (mdHtmlNodes (doc.drop (o.length + b.length + cl.length))) with
    | error e => simp [parseDoc, hfm, hdet, hec] at hp
    | ok cEvs =>
      simp only [parseDoc, hfm, hdet, hec, Except.ok.injEq] at hp
      subst hp
      simp
  · intro ds idx n c hnone
    have hdet : detectDirectives ds (trimComment c.value)
        (idx + n.startOffset + c.startOffset + 4 +
          (c.value.length - (trimLeftComment c.value).length))
        DirectiveDefinedIn.comment = Except.ok [] := by
      rw [detectDirectives, hnone]
    rw [emitCommentsForNode, hdet]
    simp [emitCommentsForNode]

theorem c7_invalid_block_zero_directives_witness :
    detectDirectives initialDirectives ("just a note\n".toList) 4
      DirectiveDefinedIn.frontMatter = Except.ok [] ∧
    emitCommentsForNode initialDirectives 0
      ⟨"<!-- this is just a note -->".toList, 0, 28⟩
      [⟨" this is just a note ".toList, 0, 28⟩] =
      Except.ok [ParseEvent.comment ("<!-- this is just a note -->".toList)
        (-4) 31] := by
  constructor
  · exact (c7_invalid_block_zero_directives.1 initialDirectives fmNoiseDoc
      ("---\n".toList) ("just a note\n".toList) ("---\n".toList)
      (by decide) (by decide)).1
  · exact c7_invalid_block_zero_directives.2 initialDirectives 0
      ⟨"<!-- this is just a note -->".toList, 0, 28⟩
      ⟨" this is just a note ".toList, 0, 28⟩ (by decide)

/-- C9: a pair whose key matches no registry definition in the given
context still produces a `directive` event, with the resolved info
absent, in the event list of its block. -/
theorem c9_unknown_key_emitted (ds : List DirectiveInfo) (t : Str) (off : Nat)
    (ctx : DirectiveDefinedIn) (ps : List YamlPair) (evs : List ParseEvent)
    (hps : parseYamlKV t = some ps)
    (hdet : detectDirectives ds t off ctx = Except.ok evs) :
    ∀ p ∈ ps, findDirective ds ctx p.key = Except.ok none →
      ParseEvent.directive none p off ∈ evs := by
  rw [detectDirectives, hps] at hdet
  exact emitItems_unknown ds ctx off ps evs hdet

theorem c9_unknown_key_emitted_witness :
    ParseEvent.directive none
      ⟨some ("customUnknownKey".toList), "1".toList, 0⟩ 0 ∈
      [ParseEvent.directive none
        ⟨some ("customUnknownKey".toList), "1".toList, 0⟩ 0] :=
  c9_unknown_key_emitted initialDirectives ("customUnknownKey: 1".toList) 0
    DirectiveDefinedIn.comment
    [⟨some ("customUnknownKey".toList), "1".toList, 0⟩]
    [ParseEvent.directive none
      ⟨some ("customUnknownKey".toList), "1".toList, 0⟩ 0]
    (by decide) (by decide)
    ⟨some ("customUnknownKey".toList), "1".toList, 0⟩ (by decide) (by decide)

/-- C10 amended: the parse returns normally on every document in which
no extracted block yields a top-level mapping entry with a null key;
malformed YAML, non-mapping blocks and sequence entries are absorbed
into zero findings.  (An entry with a null key makes the parse throw,
per the counterexample.) -/
theorem c10_total_without_null_keys (ds : List DirectiveInfo) (doc : Str)
    (h : noNullKey doc = true) : exOk (parseDoc ds doc) = true := by
  rw [noNullKey] at h
  cases hfm : fmMatch doc with
  | some tri =>
    obtain ⟨o, b, cl⟩ := tri
    simp only [blockTexts, hfm, List.all_cons, Bool.and_eq_true] at h
    obtain ⟨hb, hrest⟩ := h
    obtain ⟨fmDirs, hd⟩ :=
      detect_ok ds b o.length DirectiveDefinedIn.frontMatter hb
    obtain ⟨cEvs, hec⟩ := emitComments_ok ds (o.length + b.length + cl.length)
      (mdHtmlNodes (doc.drop (o.length + b.length + cl.length)))
      (commentTexts_pairsOk _ hrest)
    simp [parseDoc, hfm, hd, hec, exOk]
  | none =>
    simp only [blockTexts, hfm] at h
    obtain ⟨cEvs, hec⟩ := emitComments_ok ds 0 (mdHtmlNodes doc)
      (commentTexts_pairsOk _ h)
    simp [parseDoc, hfm, hec, exOk]

theorem c10_total_without_null_keys_witness :
    noNullKey mixedBadDoc = true ∧ exOk (parse mixedBadDoc) = true :=
  ⟨by decide, c10_total_without_null_keys initialDirectives mixedBadDoc (by decide)⟩
